import Mathlib

/-!
# Verification of the sequence date-repair engine (`fix_dates.py`)

This file shallowly embeds the date-repair engine of the repository:
the functions `parse_date`, `is_valid_year`, `format_date` and the
per-file procedure `process_csv`.  Text is modelled as `List Char`
(one list per line, the trailing newline stripped, exactly as the
Python code reads lines with `rstrip`).  Writing the file back is
modelled by returning `some outputLines`; the early-return paths of
`process_csv`, which perform no write, return `none`.
-/

set_option autoImplicit false

/-- a line of a CSV file, with its trailing newline stripped. -/

abbrev Line := List Char

/-- numeric value of a decimal digit character (`int` of the char in Python). -/
def dv (c : Char) : Nat := c.toNat - 48

/-- the decimal digit character for `k` (used by zero-padded formatting). -/
def digitChar (k : Nat) : Char := Char.ofNat (48 + k)

/-- the source function is_valid_year: the year lies in `[1800, 2100]`. -/
def is_valid_year (y : Int) : Bool := decide (1800 ≤ y ∧ y ≤ 2100)

/-- the source function parse_date: a date string parses iff it matches the
anchored pattern `4digits-2digits-2digits` (hence has length exactly 10);
the result is the numeric `(year, month, day)`. -/
def parse_date (s : Line) : Option (Nat × Nat × Nat) :=
  match s with
  | [y1, y2, y3, y4, h1, m1, m2, h2, d1, d2] =>
    if y1.isDigit && y2.isDigit && y3.isDigit && y4.isDigit && (h1 == '-')
        && m1.isDigit && m2.isDigit && (h2 == '-') && d1.isDigit && d2.isDigit then
      some (1000 * dv y1 + 100 * dv y2 + 10 * dv y3 + dv y4,
            10 * dv m1 + dv m2,
            10 * dv d1 + dv d2)
    else none
  | _ => none

/-- zero-padded two-digit rendering of `n` (Python `f"{n:02d}"` for `n ≥ 0`). -/
def pad2 (n : Nat) : List Char :=
  if n < 100 then [digitChar (n / 10 % 10), digitChar (n % 10)]
  else Nat.toDigits 10 n

/-- zero-padded four-digit rendering of `n` (Python `f"{n:04d}"` for `n ≥ 0`). -/
def pad4 (n : Nat) : List Char :=
  if n < 10000 then
    [digitChar (n / 1000 % 10), digitChar (n / 100 % 10),
     digitChar (n / 10 % 10), digitChar (n % 10)]
  else Nat.toDigits 10 n

/-- the source function format_date: `f"{year:04d}-{month:02d}-{day:02d}"`. -/
def format_date (y m d : Nat) : Line :=
  pad4 y ++ '-' :: (pad2 m ++ '-' :: pad2 d)

/-- Python `line.split(',')`: split a line at every comma, keeping empty
parts (the result is never empty, so prepending to its head is total). -/
def splitComma : List Char → List (List Char)
  | [] => [[]]
  | c :: cs =>
    if c = ',' then [] :: splitComma cs
    else (c :: (splitComma cs).headD []) :: (splitComma cs).tail

/-- Python `','.join(parts)`. -/
def joinComma : List (List Char) → List Char
  | [] => []
  | [p] => p
  | p :: q :: ps => p ++ ',' :: joinComma (q :: ps)

/-- a row record built by `process_csv`: the raw date field, its structural
parse, and the remaining comma-joined payload. -/
structure Rec where
  original_date : Line
  parsed : Option (Nat × Nat × Nat)
  value : Line
deriving Repr, DecidableEq

/-- the record-building loop of `process_csv`: each data line with at least
two comma-separated fields becomes a record; shorter lines are skipped. -/
def mkRecords (dataLines : List Line) : List Rec :=
  dataLines.filterMap (fun line =>
    if 2 ≤ (splitComma line).length then
      some ⟨(splitComma line).headD [],
            parse_date ((splitComma line).headD []),
            joinComma (splitComma line).tail⟩
    else none)

/-- a record is an anchor iff its date parsed and the year is valid
(Python `rec['parsed'] and is_valid_year(rec['parsed'][0])`). -/
def isAnchor (r : Rec) : Bool :=
  match r.parsed with
  | some (y, _, _) => is_valid_year (y : Int)
  | none => false

/-- whether the record at position `j` exists and is an anchor. -/
def isAnchorAt (rs : List Rec) (j : Nat) : Bool :=
  match rs.get? j with
  | some r => isAnchor r
  | none => false

/-- the parsed year of the record at position `j` (0 when absent). -/
def yearAt (rs : List Rec) (j : Nat) : Nat :=
  match rs.get? j with
  | some r =>
    match r.parsed with
    | some (y, _, _) => y
    | none => 0
  | none => 0

/-- the `valid_years` list of the source: years of the anchors in order. -/
def anchorYears (rs : List Rec) : List Nat :=
  ((List.range rs.length).filter (fun j => isAnchorAt rs j)).map (fun j => yearAt rs j)

/-- the direction inference of the source: with at least two anchors the
sequence is ascending iff the last anchor year exceeds the first; with
fewer than two anchors it defaults to ascending. -/
def ascendingOf (rs : List Rec) : Bool :=
  if 2 ≤ (anchorYears rs).length then
    decide ((anchorYears rs).headD 0 < (anchorYears rs).getLastD 0)
  else true

/-- index of the nearest anchor strictly before `i` (backward linear scan). -/
def prevAnchor (rs : List Rec) (i : Nat) : Option Nat :=
  (List.range i).reverse.find? (fun j => isAnchorAt rs j)

/-- index of the nearest anchor strictly after `i` (forward linear scan). -/
def nextAnchor (rs : List Rec) (i : Nat) : Option Nat :=
  ((List.range rs.length).drop (i + 1)).find? (fun j => isAnchorAt rs j)

/-- the year-inference step of the source for a corrupted row at index `i`:
if the next anchor is at least as close as the previous one (missing
anchors count as infinitely far), project backward from the next anchor,
else project forward from the previous one; `none` when no anchor exists
on either side. -/
def inferYear (rs : List Rec) (asc : Bool) (i : Nat) : Option Int :=
  match nextAnchor rs i, prevAnchor rs i with
  | some nj, some pj =>
    if nj - i ≤ i - pj then
      some (if asc then (yearAt rs nj : Int) - ((nj - i : Nat) : Int)
            else (yearAt rs nj : Int) + ((nj - i : Nat) : Int))
    else
      some (if asc then (yearAt rs pj : Int) + ((i - pj : Nat) : Int)
            else (yearAt rs pj : Int) - ((i - pj : Nat) : Int))
  | some nj, none =>
    some (if asc then (yearAt rs nj : Int) - ((nj - i : Nat) : Int)
          else (yearAt rs nj : Int) + ((nj - i : Nat) : Int))
  | none, some pj =>
    some (if asc then (yearAt rs pj : Int) + ((i - pj : Nat) : Int)
          else (yearAt rs pj : Int) - ((i - pj : Nat) : Int))
  | none, none => none

/-- the month/day selection of the repair loop: the original month/day are
reused when the date parsed structurally and they are in range, a
malformed month is replaced by 12 and a malformed day by 30
independently, and a structurally unparsed date yields the sentinel
`(12, 30)`. -/
def monthDayOf (p : Option (Nat × Nat × Nat)) : Nat × Nat :=
  match p with
  | some (_, m, d) =>
    (if 1 ≤ m ∧ m ≤ 12 then m else 12, if 1 ≤ d ∧ d ≤ 31 then d else 30)
  | none => (12, 30)

/-- the tail of the per-row repair: given the inferred year (when any), a
truthy valid year is formatted with the selected month/day and counted
as fixed; otherwise the original text is kept uncounted. -/
def repairWith (r : Rec) (oy : Option Int) : Line × Bool :=
  match oy with
  | none => (r.original_date, false)
  | some y =>
    if y ≠ 0 ∧ is_valid_year y = true then
      (format_date y.toNat (monthDayOf r.parsed).1 (monthDayOf r.parsed).2, true)
    else (r.original_date, false)

/-- the per-row body of the repair loop: anchors keep their original date;
a corrupted row is repaired from its inferred year.  The boolean records
whether the row was counted as fixed. -/
def fixedDateOf (rs : List Rec) (asc : Bool) (i : Nat) (r : Rec) : Line × Bool :=
  if isAnchor r then (r.original_date, false)
  else repairWith r (inferYear rs asc i)

/-- the repair of the record at position `i`, using the file's inferred
direction. -/
def fixedOf (rs : List Rec) (i : Nat) (r : Rec) : Line × Bool :=
  fixedDateOf rs (ascendingOf rs) i r

/-- the data lines written back: each record becomes `fixed_date,value`. -/
def outputLines (rs : List Rec) : List Line :=
  rs.enum.map (fun p => (fixedOf rs p.1 p.2).1 ++ ',' :: p.2.value)

/-- the count of rows the repair loop actually changed. -/
def fixedCount (rs : List Rec) : Nat :=
  (rs.enum.filter (fun p => (fixedOf rs p.1 p.2).2)).length

/-- the source function process_csv, on the file's list of lines: files with
fewer than two lines, or whose records contain no anchor, are left
untouched (`none`, no write); otherwise the file is rewritten as the
header followed by the repaired data lines, and the number of fixed
rows is returned. -/
def process_csv (lines : List Line) : Nat × Option (List Line) :=
  if lines.length < 2 then (0, none)
  else
    if (mkRecords lines.tail).all (fun r => !isAnchor r) then (0, none)
    else (fixedCount (mkRecords lines.tail),
          some (lines.headD [] :: outputLines (mkRecords lines.tail)))

/-- records of a file whose anchors sit at index 0 (year 1970) and index 10
(year 1980), with corrupted rows in between. -/
def C1rs : List Rec :=
  mkRecords ((["1970-01-01,v", "0000-01-01,v", "0000-01-01,v", "0000-01-01,v",
    "0000-01-01,v", "0000-01-01,v", "0000-01-01,v", "0000-01-01,v",
    "0000-01-01,v", "0000-01-01,v", "1980-01-01,v"]).map String.toList)

/-- the spec's three-row scenario file: anchors at data indices 0 and 2, a
corrupted second row. -/
def C2lines : List Line :=
  (["Date,Value", "1970-01-01,10", "09A0-01-01,11", "1972-01-01,12"]).map String.toList

/-- an anchor record used to instantiate the anchor-preservation theorem. -/
def C3r : Rec := ⟨"1970-01-01".toList, parse_date "1970-01-01".toList, "10".toList⟩

/-- records of a two-row file whose only anchor has year 2100, so the row
after it gets the out-of-range inferred year 2101. -/
def C5rs : List Rec :=
  mkRecords ((["2100-01-01,1", "09A0-01-01,2"]).map String.toList)

/-- the corrupted second record of the two-row out-of-range file. -/
def C5r : Rec := ⟨"09A0-01-01".toList, parse_date "09A0-01-01".toList, "2".toList⟩

/-- records with two anchors in ascending order, for the direction witness. -/
def C9rs : List Rec :=
  mkRecords ((["1970-01-01,1", "0000-01-01,2", "1990-01-01,3"]).map String.toList)

/-- C8 hinges on the structural-parse status of the corrupted field, so the
scenario file's second row has month text "00" inside a date that does
not parse structurally. -/
def C8lines : List Line :=
  (["Date,Value", "1970-01-01,1", "197-00-055,2", "1972-01-01,3"]).map String.toList

/-- records whose corrupted middle row parses structurally with month 0 and
day 5, to instantiate the month/day-handling theorem. -/
def C8wrs : List Rec :=
  mkRecords ((["1970-01-01,1", "9999-00-05,2", "1972-01-01,3"]).map String.toList)

/-- the structurally parsed corrupted record with month 0 and day 5. -/
def C8wr : Rec := ⟨"9999-00-05".toList, parse_date "9999-00-05".toList, "2".toList⟩

/-- the records of the spec's scenario file, whose middle row gets
repaired, used to instantiate the repaired-date validity theorem. -/
def C10rs : List Rec := mkRecords C2lines.tail

/-- the corrupted middle record of the scenario file. -/
def C10r : Rec := ⟨"09A0-01-01".toList, parse_date "09A0-01-01".toList, "11".toList⟩

/-- the three-line file whose last data line has no comma, so the code
drops it from the rewritten output. -/
def C6lines : List Line := (["h", "1970-01-01,1", "x"]).map String.toList

/-- C4 counterexample file: descending sequence with anchors 1801 (first)
and 1800 (last); the row at data index 2 is unreparable on the first run
(inferred year 1799) but becomes reparable on the second run, when its
repaired neighbours have turned into closer anchors and the tie-break
flips to the next side. -/
def C4lines : List Line :=
  (["h", "1801-01-01,a", "0000-01-01,b", "0000-01-01,c", "0000-01-01,d",
    "0000-01-01,e", "0000-01-01,f", "1800-01-01,g"]).map String.toList

/-- the file written by the first run on the C4 counterexample file. -/
def C4out : List Line :=
  (["h", "1801-01-01,a", "1800-01-01,b", "0000-01-01,c", "1803-01-01,d",
    "1802-01-01,e", "1801-01-01,f", "1800-01-01,g"]).map String.toList

/-- a file whose single corrupted row gets fully repaired by the first run. -/
def C4wlines : List Line :=
  (["h2", "1980-01-01,x", "2x80-01-01,y", "1982-01-01,z"]).map String.toList

/-- the output of the first run on `C4wlines`: every row is an anchor. -/
def C4wout : List Line :=
  (["h2", "1980-01-01,x", "1981-12-30,y", "1982-01-01,z"]).map String.toList

lemma fixedDateOf_of_anchor (rs : List Rec) (asc : Bool) (i : Nat) (r : Rec)
    (h : isAnchor r = true) : fixedDateOf rs asc i r = (r.original_date, false) := by
  unfold fixedDateOf
  rw [if_pos h]

lemma not_anchor_true (r : Rec) (h : isAnchor r = false) : ¬ (isAnchor r = true) := by
  simp [h]

lemma fixedDateOf_not_anchor (rs : List Rec) (asc : Bool) (i : Nat) (r : Rec)
    (h : isAnchor r = false) :
    fixedDateOf rs asc i r = repairWith r (inferYear rs asc i) := by
  unfold fixedDateOf
  rw [if_neg (not_anchor_true r h)]

lemma repairWith_none (r : Rec) : repairWith r none = (r.original_date, false) := rfl

lemma repairWith_some (r : Rec) (y : Int) :
    repairWith r (some y) =
      if y ≠ 0 ∧ is_valid_year y = true then
        (format_date y.toNat (monthDayOf r.parsed).1 (monthDayOf r.parsed).2, true)
      else (r.original_date, false) := rfl

/-- C1: for every corrupted row, the projection anchor is selected by the
tie-break "next anchor wins when at least as close": when a next anchor
exists and is at least as close as any previous one, the year is
projected backward from it (minus the step count if ascending, plus if
descending); otherwise, when a previous anchor exists, the year is
projected forward from it (plus the step count if ascending, minus if
descending).  In particular, with anchors at index 0 (year 1970) and
index 10 (year 1980) in an ascending sequence, the corrupted row at
index 3 gets inferred year 1973. -/
theorem C1_nearest_anchor_projection (rs : List Rec) (asc : Bool) (i : Nat) :
    (∀ nj, nextAnchor rs i = some nj →
      (∀ pj, prevAnchor rs i = some pj → nj - i ≤ i - pj) →
      inferYear rs asc i =
        some (if asc then (yearAt rs nj : Int) - ((nj - i : Nat) : Int)
              else (yearAt rs nj : Int) + ((nj - i : Nat) : Int)))
    ∧ (∀ pj, prevAnchor rs i = some pj →
      (∀ nj, nextAnchor rs i = some nj → i - pj < nj - i) →
      inferYear rs asc i =
        some (if asc then (yearAt rs pj : Int) + ((i - pj : Nat) : Int)
              else (yearAt rs pj : Int) - ((i - pj : Nat) : Int)))
    ∧ inferYear C1rs (ascendingOf C1rs) 3 = some 1973 := by
  refine ⟨?_, ?_, by decide⟩
  · intro nj hn hp
    cases hP : prevAnchor rs i with
    | none => simp only [inferYear, hn, hP]
    | some pj =>
      simp only [inferYear, hn, hP]
      rw [if_pos (hp pj hP)]
  · intro pj hP hn
    cases hN : nextAnchor rs i with
    | none => simp only [inferYear, hN, hP]
    | some nj =>
      simp only [inferYear, hN, hP]
      rw [if_neg (Nat.not_le.mpr (hn nj hN))]

theorem C1_nearest_anchor_projection_witness : inferYear C1rs true 3 = some 1973 := by
  have h := (C1_nearest_anchor_projection C1rs true 3).2.1 0 (by decide)
    (fun nj hn => by
      have h10 : nextAnchor C1rs 3 = some 10 := by decide
      rw [h10] at hn
      cases hn
      decide)
  rw [h]
  decide

/-- C2 counterexample: on the spec's three-row scenario the code does not
produce the claimed fixed date "1971-01-01" for the second row: the
corrupted field "09A0-01-01" fails the structural parse, so the sentinel
month/day would be substituted instead. -/
theorem C2_scenario_counterexample :
    process_csv C2lines ≠
      (1, some ((["Date,Value", "1970-01-01,10", "1971-01-01,11",
        "1972-01-01,12"]).map String.toList)) := by
  decide

/-- C2 amended: on the scenario the second row is repaired to
"1971-12-30" (year 1971 inferred from the anchors, sentinel month/day
12-30 because "09A0-01-01" does not parse structurally), the first and
third rows are unchanged, and the fixed count is 1. -/
theorem C2_scenario_amended :
    process_csv C2lines =
      (1, some ((["Date,Value", "1970-01-01,10", "1971-12-30,11",
        "1972-01-01,12"]).map String.toList)) := by
  decide

/-- C3: every row whose date field is valid (an anchor) keeps its original
date text uncounted, so anchors are never altered by processing. -/
theorem C3_anchor_preservation (rs : List Rec) (asc : Bool) (i : Nat) (r : Rec)
    (h : isAnchor r = true) : fixedDateOf rs asc i r = (r.original_date, false) :=
  fixedDateOf_of_anchor rs asc i r h

/-- an anchor record used to instantiate the anchor-preservation theorem. -/

theorem C3_anchor_preservation_witness :
    fixedDateOf [] true 0 C3r = ("1970-01-01".toList, false) :=
  C3_anchor_preservation [] true 0 C3r (by decide)

/-- C5: a corrupted row whose inferred year is undefined, zero, or outside
[1800, 2100] keeps its original date text verbatim and is not counted as
fixed. -/
theorem C5_out_of_range_rejection (rs : List Rec) (asc : Bool) (i : Nat) (r : Rec)
    (h : isAnchor r = false) :
    (inferYear rs asc i = none → fixedDateOf rs asc i r = (r.original_date, false))
    ∧ (∀ y, inferYear rs asc i = some y → (y = 0 ∨ is_valid_year y = false) →
        fixedDateOf rs asc i r = (r.original_date, false)) := by
  constructor
  · intro hn
    rw [fixedDateOf_not_anchor rs asc i r h, hn, repairWith_none]
  · intro y hy hbad
    rw [fixedDateOf_not_anchor rs asc i r h, hy, repairWith_some]
    rw [if_neg ?hc]
    case hc =>
      rcases hbad with h0 | hv
      · intro hc
        exact hc.1 h0
      · intro hc
        rw [hv] at hc
        exact Bool.false_ne_true hc.2

/-- records of a two-row file whose only anchor has year 2100, so the row
after it gets the out-of-range inferred year 2101. -/

theorem C5_out_of_range_rejection_witness :
    fixedDateOf C5rs true 1 C5r = ("09A0-01-01".toList, false) :=
  (C5_out_of_range_rejection C5rs true 1 C5r (by decide)).2 2101 (by decide)
    (Or.inr (by decide))

/-- C9: the direction used for all repairs is computed once per file: with
at least two anchors the sequence is ascending exactly when the year of
the last anchor strictly exceeds the year of the first, and with fewer
than two anchors it is ascending. -/
theorem C9_direction_inference (rs : List Rec) :
    (2 ≤ (anchorYears rs).length →
      (ascendingOf rs = true ↔ (anchorYears rs).headD 0 < (anchorYears rs).getLastD 0))
    ∧ ((anchorYears rs).length < 2 → ascendingOf rs = true) := by
  constructor
  · intro h
    unfold ascendingOf
    rw [if_pos h]
    exact decide_eq_true_iff
  · intro h
    unfold ascendingOf
    rw [if_neg (by omega)]

/-- records with two anchors in ascending order, for the direction witness. -/

theorem C9_direction_inference_witness : ascendingOf C9rs = true :=
  ((C9_direction_inference C9rs).1 (by decide)).mpr (by decide)

/-- C8: when a corrupted row is repaired, a structurally parsed original
date contributes its month when in [1,12] (else 12) and independently
its day when in [1,31] (else 30); a structurally unparsed date yields
the sentinel month 12 and day 30.  In particular, the row "197-00-055"
(month text "00", no structural parse) is repaired to "1971-12-30"
regardless of its day text. -/
theorem C8_month_day_handling (rs : List Rec) (asc : Bool) (i : Nat) (r : Rec) (y : Int)
    (h1 : isAnchor r = false) (h2 : inferYear rs asc i = some y)
    (h3 : y ≠ 0) (h4 : is_valid_year y = true) :
    (∀ y0 m d, r.parsed = some (y0, m, d) →
      fixedDateOf rs asc i r =
        (format_date y.toNat (if 1 ≤ m ∧ m ≤ 12 then m else 12)
                             (if 1 ≤ d ∧ d ≤ 31 then d else 30), true))
    ∧ (r.parsed = none → fixedDateOf rs asc i r = (format_date y.toNat 12 30, true))
    ∧ process_csv C8lines =
        (1, some ((["Date,Value", "1970-01-01,1", "1971-12-30,2",
          "1972-01-01,3"]).map String.toList)) := by
  refine ⟨?_, ?_, by decide⟩
  · intro y0 m d hp
    rw [fixedDateOf_not_anchor rs asc i r h1, h2, repairWith_some, if_pos ⟨h3, h4⟩, hp]
    rfl
  · intro hp
    rw [fixedDateOf_not_anchor rs asc i r h1, h2, repairWith_some, if_pos ⟨h3, h4⟩, hp]
    rfl

/-- records whose corrupted middle row parses structurally with month 0 and
day 5, to instantiate the month/day-handling theorem. -/

theorem C8_month_day_handling_witness :
    fixedDateOf C8wrs true 1 C8wr = ("1971-12-05".toList, true) := by
  have h := (C8_month_day_handling C8wrs true 1 C8wr 1971 (by decide) (by decide)
    (by decide) (by decide)).1 9999 0 5 (by decide)
  rw [h]
  decide

lemma isDigit_digitChar (k : Nat) (h : k < 10) : (digitChar k).isDigit = true := by
  interval_cases k <;> decide

lemma dv_digitChar (k : Nat) (h : k < 10) : dv (digitChar k) = k := by
  interval_cases k <;> decide

lemma parse_format_date (y m d : Nat) (hy : y < 10000) (hm : m < 100) (hd : d < 100) :
    parse_date (format_date y m d) = some (y, m, d) := by
  have hdig : ∀ k : Nat, (digitChar (k % 10)).isDigit = true :=
    fun k => isDigit_digitChar _ (Nat.mod_lt _ (by norm_num))
  have hdv : ∀ k : Nat, dv (digitChar (k % 10)) = k % 10 :=
    fun k => dv_digitChar _ (Nat.mod_lt _ (by norm_num))
  unfold format_date pad4 pad2
  rw [if_pos hy, if_pos hm, if_pos hd]
  simp only [List.cons_append, List.nil_append]
  simp only [parse_date]
  rw [if_pos (by simp [hdig])]
  simp only [hdv, Option.some.injEq, Prod.mk.injEq]
  omega

lemma monthDayOf_bounds (p : Option (Nat × Nat × Nat)) :
    1 ≤ (monthDayOf p).1 ∧ (monthDayOf p).1 ≤ 12
      ∧ 1 ≤ (monthDayOf p).2 ∧ (monthDayOf p).2 ≤ 31 := by
  rcases p with _ | ⟨y0, m, d⟩
  · simp [monthDayOf]
  · simp only [monthDayOf]
    constructor
    · split_ifs <;> omega
    constructor
    · split_ifs <;> omega
    constructor
    · split_ifs <;> omega
    · split_ifs <;> omega

lemma anchor_eq_false_of_not (r : Rec) (h : ¬ isAnchor r = true) : isAnchor r = false := by
  revert h
  cases isAnchor r <;> simp

/-- C10: every repaired row's written date itself passes the anchor
validity test: it parses as 4digits-2digits-2digits with a year in
[1800, 2100], and moreover its month lies in [1, 12] and its day in
[1, 31] (not necessarily a real calendar date). -/
theorem C10_repaired_dates_are_anchors (rs : List Rec) (asc : Bool) (i : Nat) (r : Rec)
    (s : Line) (h : fixedDateOf rs asc i r = (s, true)) :
    ∃ y m d, parse_date s = some (y, m, d) ∧ is_valid_year (y : Int) = true
      ∧ 1 ≤ m ∧ m ≤ 12 ∧ 1 ≤ d ∧ d ≤ 31 := by
  by_cases hA : isAnchor r = true
  · rw [fixedDateOf_of_anchor rs asc i r hA] at h
    exact absurd (congrArg Prod.snd h) (by simp)
  · rw [fixedDateOf_not_anchor rs asc i r (anchor_eq_false_of_not r hA)] at h
    cases hy : inferYear rs asc i with
    | none =>
      rw [hy, repairWith_none] at h
      exact absurd (congrArg Prod.snd h) (by simp)
    | some y =>
      rw [hy, repairWith_some] at h
      by_cases hc : y ≠ 0 ∧ is_valid_year y = true
      · rw [if_pos hc] at h
        have hyr : 1800 ≤ y ∧ y ≤ 2100 := of_decide_eq_true hc.2
        have hy0 : (0 : Int) ≤ y := by omega
        have hlo : 1800 ≤ y.toNat := by omega
        have hhi : y.toNat ≤ 2100 := by omega
        have hb := monthDayOf_bounds r.parsed
        have hs : s = format_date y.toNat (monthDayOf r.parsed).1 (monthDayOf r.parsed).2 :=
          (congrArg Prod.fst h).symm
        refine ⟨y.toNat, (monthDayOf r.parsed).1, (monthDayOf r.parsed).2, ?_, ?_,
          hb.1, hb.2.1, hb.2.2.1, hb.2.2.2⟩
        · rw [hs]
          exact parse_format_date _ _ _ (by omega) (by omega) (by omega)
        · have : ((y.toNat : Nat) : Int) = y := Int.toNat_of_nonneg hy0
          rw [this]
          exact hc.2
      · rw [if_neg hc] at h
        exact absurd (congrArg Prod.snd h) (by simp)

/-- the records of the spec's scenario file, whose middle row gets
repaired, used to instantiate the repaired-date validity theorem. -/

theorem C10_repaired_dates_are_anchors_witness :
    ∃ y m d, parse_date "1971-12-30".toList = some (y, m, d)
      ∧ is_valid_year (y : Int) = true ∧ 1 ≤ m ∧ m ≤ 12 ∧ 1 ≤ d ∧ d ≤ 31 :=
  C10_repaired_dates_are_anchors C10rs true 1 C10r "1971-12-30".toList (by decide)

lemma eq_false_of_not_eq_true (b : Bool) (h : ¬ b = true) : b = false := by
  cases b <;> simp_all

/-- C7: a file with fewer than two lines, and a file whose records contain
no anchor, are both left untouched: the result is 0 and no write occurs. -/
theorem C7_no_op_conditions (lines : List Line) :
    (lines.length < 2 → process_csv lines = (0, none))
    ∧ ((∀ r ∈ mkRecords lines.tail, isAnchor r = false) → process_csv lines = (0, none)) := by
  constructor
  · intro h
    unfold process_csv
    rw [if_pos h]
  · intro h
    have hall : (mkRecords lines.tail).all (fun r => !isAnchor r) = true := by
      rw [List.all_eq_true]
      intro r hr
      rw [h r hr]
      rfl
    unfold process_csv
    by_cases hl : lines.length < 2
    · rw [if_pos hl]
    · rw [if_neg hl, if_pos hall]

theorem C7_no_op_conditions_witness :
    process_csv ["h".toList] = (0, none) :=
  (C7_no_op_conditions ["h".toList]).1 (by decide)

lemma process_csv_eq_some (lines : List Line) (cnt : Nat) (out : List Line)
    (h : process_csv lines = (cnt, some out)) :
    ¬ lines.length < 2
    ∧ (mkRecords lines.tail).all (fun r => !isAnchor r) = false
    ∧ cnt = fixedCount (mkRecords lines.tail)
    ∧ out = lines.headD [] :: outputLines (mkRecords lines.tail) := by
  unfold process_csv at h
  by_cases h1 : lines.length < 2
  · rw [if_pos h1] at h
    exact absurd (congrArg Prod.snd h) (by simp)
  · rw [if_neg h1] at h
    by_cases h2 : (mkRecords lines.tail).all (fun r => !isAnchor r) = true
    · rw [if_pos h2] at h
      exact absurd (congrArg Prod.snd h) (by simp)
    · rw [if_neg h2] at h
      refine ⟨h1, eq_false_of_not_eq_true _ h2, (congrArg Prod.fst h).symm, ?_⟩
      exact (Option.some.inj (congrArg Prod.snd h)).symm

lemma outputLines_length (rs : List Rec) : (outputLines rs).length = rs.length := by
  unfold outputLines
  rw [List.length_map, List.enum_length]

lemma mkRecords_length (dl : List Line) :
    (mkRecords dl).length
      = (dl.filter (fun l => decide (2 ≤ (splitComma l).length))).length := by
  induction dl with
  | nil => rfl
  | cons l dl ih =>
    by_cases h : 2 ≤ (splitComma l).length
    · simp [mkRecords, List.filterMap_cons, List.filter_cons, h] at ih ⊢
      exact ih
    · simp [mkRecords, List.filterMap_cons, List.filter_cons, h] at ih ⊢
      exact ih

/-- C6 counterexample: the input file has two data lines but the rewritten
output keeps only one of them: the comma-less line "x" is dropped, so
the row count is not preserved. -/
theorem C6_row_preservation_counterexample :
    (process_csv C6lines).2 = some ((["h", "1970-01-01,1"]).map String.toList)
      ∧ C6lines.length = 3 := by
  decide

/-- C6 amended: when `process_csv` rewrites a file, the header is preserved
and the output has one row per input data line that splits into at least
two comma-separated fields; data lines with fewer fields are dropped. -/
theorem C6_row_preservation_amended (lines : List Line) (cnt : Nat) (out : List Line)
    (h : process_csv lines = (cnt, some out)) :
    out.headD [] = lines.headD []
    ∧ out.length
        = 1 + (lines.tail.filter (fun l => decide (2 ≤ (splitComma l).length))).length := by
  obtain ⟨h1, h2, hcnt, hout⟩ := process_csv_eq_some lines cnt out h
  constructor
  · rw [hout]
    rfl
  · rw [hout, List.length_cons, outputLines_length, mkRecords_length]
    omega

theorem C6_row_preservation_amended_witness :
    ((["h", "1970-01-01,1"]).map String.toList).headD [] = C6lines.headD []
    ∧ ((["h", "1970-01-01,1"]).map String.toList).length
        = 1 + (C6lines.tail.filter (fun l => decide (2 ≤ (splitComma l).length))).length :=
  C6_row_preservation_amended C6lines 0 ((["h", "1970-01-01,1"]).map String.toList) (by decide)

lemma splitComma_cons_comma (cs : List Char) :
    splitComma (',' :: cs) = [] :: splitComma cs := by
  simp [splitComma]

lemma splitComma_cons_ne (c : Char) (cs : List Char) (h : c ≠ ',') :
    splitComma (c :: cs) = (c :: (splitComma cs).headD []) :: (splitComma cs).tail := by
  simp [splitComma, h]

lemma splitComma_ne_nil (l : List Char) : splitComma l ≠ [] := by
  cases l with
  | nil => simp [splitComma]
  | cons c cs =>
    by_cases h : c = ','
    · subst h
      rw [splitComma_cons_comma]
      simp
    · rw [splitComma_cons_ne c cs h]
      simp

lemma splitComma_dest (l : List Char) : ∃ q qs, splitComma l = q :: qs := by
  cases hqs : splitComma l with
  | nil => exact absurd hqs (splitComma_ne_nil l)
  | cons q qs => exact ⟨q, qs, rfl⟩

lemma mem_splitComma_no_comma (l : List Char) : ∀ p ∈ splitComma l, ',' ∉ p := by
  induction l with
  | nil =>
    intro p hp
    simp only [splitComma, List.mem_singleton] at hp
    subst hp
    simp
  | cons c cs ih =>
    intro p hp
    by_cases h : c = ','
    · subst h
      rw [splitComma_cons_comma] at hp
      rcases List.mem_cons.mp hp with h1 | h1
      · subst h1
        simp
      · exact ih p h1
    · rw [splitComma_cons_ne c cs h] at hp
      obtain ⟨q, qs, hs⟩ := splitComma_dest cs
      rw [hs] at hp
      simp only [List.headD_cons, List.tail_cons] at hp
      rcases List.mem_cons.mp hp with h1 | h1
      · subst h1
        intro hmem
        rcases List.mem_cons.mp hmem with h2 | h2
        · exact h h2.symm
        · exact ih q (by rw [hs]; exact List.mem_cons_self q qs) h2
      · exact ih p (by rw [hs]; exact List.mem_cons_of_mem q h1)

lemma splitComma_append_comma (a b : List Char) (h : ',' ∉ a) :
    splitComma (a ++ ',' :: b) = a :: splitComma b := by
  induction a with
  | nil =>
    rw [List.nil_append]
    exact splitComma_cons_comma b
  | cons c a ih =>
    have hc : c ≠ ',' := fun hEq => h (List.mem_cons.mpr (Or.inl hEq.symm))
    have ha : ',' ∉ a := fun hm => h (List.mem_cons_of_mem c hm)
    rw [List.cons_append, splitComma_cons_ne c _ hc, ih ha]
    rfl

lemma joinComma_splitComma (l : List Char) : joinComma (splitComma l) = l := by
  induction l with
  | nil => rfl
  | cons c cs ih =>
    obtain ⟨q, qs, hs⟩ := splitComma_dest cs
    by_cases h : c = ','
    · subst h
      rw [splitComma_cons_comma, hs]
      show [] ++ ',' :: joinComma (q :: qs) = ',' :: cs
      rw [List.nil_append, ← hs, ih]
    · rw [splitComma_cons_ne c cs h, hs]
      simp only [List.headD_cons, List.tail_cons]
      rw [hs] at ih
      cases qs with
      | nil =>
        show c :: q = c :: cs
        have hq : q = cs := ih
        rw [hq]
      | cons q2 qs2 =>
        show (c :: q) ++ ',' :: joinComma (q2 :: qs2) = c :: cs
        have hq : q ++ ',' :: joinComma (q2 :: qs2) = cs := ih
        rw [List.cons_append, hq]

lemma comma_ne_digitChar (k : Nat) (h : k < 10) : ¬ (',' = digitChar k) := by
  interval_cases k <;> decide

lemma comma_not_mem_format (y m d : Nat) (hy : y < 10000) (hm : m < 100) (hd : d < 100) :
    ',' ∉ format_date y m d := by
  unfold format_date pad4 pad2
  rw [if_pos hy, if_pos hm, if_pos hd]
  intro hmem
  simp only [List.cons_append, List.nil_append, List.mem_cons, List.not_mem_nil,
    or_false] at hmem
  rcases hmem with h | h | h | h | h | h | h | h | h | h <;>
    first
      | exact comma_ne_digitChar _ (Nat.mod_lt _ (by norm_num)) h
      | exact absurd h (by decide)

lemma fixedDateOf_no_comma (rs : List Rec) (asc : Bool) (i : Nat) (r : Rec)
    (h : ',' ∉ r.original_date) : ',' ∉ (fixedDateOf rs asc i r).1 := by
  by_cases hA : isAnchor r = true
  · rw [fixedDateOf_of_anchor rs asc i r hA]
    exact h
  · rw [fixedDateOf_not_anchor rs asc i r (eq_false_of_not_eq_true _ hA)]
    cases hy : inferYear rs asc i with
    | none =>
      rw [repairWith_none]
      exact h
    | some y =>
      rw [repairWith_some]
      by_cases hc : y ≠ 0 ∧ is_valid_year y = true
      · rw [if_pos hc]
        have hyr : 1800 ≤ y ∧ y ≤ 2100 := of_decide_eq_true hc.2
        have hb := monthDayOf_bounds r.parsed
        exact comma_not_mem_format _ _ _ (by omega) (by omega) (by omega)
      · rw [if_neg hc]
        exact h

lemma snd_mem_of_mem_enum {α : Type} (l : List α) (p : Nat × α) (hp : p ∈ l.enum) :
    p.2 ∈ l := by
  have h := List.enum_map_snd l
  rw [← h]
  exact List.mem_map_of_mem Prod.snd hp

lemma mkRecords_no_comma (dl : List Line) :
    ∀ r ∈ mkRecords dl, ',' ∉ r.original_date := by
  intro r hr
  unfold mkRecords at hr
  rw [List.mem_filterMap] at hr
  obtain ⟨l, hl, hfl⟩ := hr
  by_cases h : 2 ≤ (splitComma l).length
  · rw [if_pos h] at hfl
    have hr2 := Option.some.inj hfl
    obtain ⟨q, qs, hs⟩ := splitComma_dest l
    have hq : ',' ∉ q := mem_splitComma_no_comma l q (by rw [hs]; exact List.mem_cons_self q qs)
    rw [← hr2]
    rw [hs]
    simpa using hq
  · rw [if_neg h] at hfl
    exact absurd hfl (by simp)

lemma mkRecords_map_reassemble (dl : List Line)
    (h : ∀ l ∈ dl, 2 ≤ (splitComma l).length) :
    (mkRecords dl).map (fun r => r.original_date ++ ',' :: r.value) = dl := by
  induction dl with
  | nil => rfl
  | cons l dl ih =>
    have hl := h l (List.mem_cons_self l dl)
    have hdl : ∀ l' ∈ dl, 2 ≤ (splitComma l').length :=
      fun l' hm => h l' (List.mem_cons_of_mem l hm)
    unfold mkRecords
    rw [List.filterMap_cons]
    rw [if_pos hl]
    show (⟨(splitComma l).headD [], parse_date ((splitComma l).headD []),
      joinComma (splitComma l).tail⟩ :: mkRecords dl).map
        (fun r => r.original_date ++ ',' :: r.value) = l :: dl
    rw [List.map_cons, ih hdl]
    obtain ⟨q, qs, hs⟩ := splitComma_dest l
    have hq2 : qs ≠ [] := by
      rw [hs] at hl
      intro hn
      rw [hn] at hl
      simp at hl
    obtain ⟨q2, qs2, hqs⟩ : ∃ q2 qs2, qs = q2 :: qs2 := by
      cases qs with
      | nil => exact absurd rfl hq2
      | cons q2 qs2 => exact ⟨q2, qs2, rfl⟩
    have hjoin : joinComma (splitComma l) = l := joinComma_splitComma l
    rw [hs, hqs] at hjoin
    have hjoin2 : q ++ ',' :: joinComma (q2 :: qs2) = l := hjoin
    rw [hs, hqs]
    simp only [List.headD_cons, List.tail_cons]
    rw [hjoin2]

lemma outputLines_parts (rs : List Rec) (hc : ∀ r ∈ rs, ',' ∉ r.original_date) :
    ∀ l ∈ outputLines rs, 2 ≤ (splitComma l).length := by
  intro l hl
  unfold outputLines at hl
  rw [List.mem_map] at hl
  obtain ⟨p, hp, hlp⟩ := hl
  have hr : p.2 ∈ rs := snd_mem_of_mem_enum rs p hp
  have hnc : ',' ∉ (fixedOf rs p.1 p.2).1 :=
    fixedDateOf_no_comma rs (ascendingOf rs) p.1 p.2 (hc p.2 hr)
  rw [← hlp, splitComma_append_comma _ _ hnc, List.length_cons]
  have h1 : 0 < (splitComma p.2.value).length :=
    List.length_pos.mpr (splitComma_ne_nil _)
  omega

/-- C4 counterexample: a first run fixes 4 rows and writes `C4out`, but a
second run on `C4out` fixes one more row (returning 1, not 0) and
changes the contents again. -/
theorem C4_idempotence_counterexample :
    process_csv C4lines = (4, some C4out)
    ∧ (process_csv C4out).1 = 1
    ∧ (process_csv C4out).2 ≠ some C4out := by
  refine ⟨by decide, by decide, by decide⟩

/-- C4 amended: a second run is a no-op returning 0 and rewriting identical
contents provided the first run's written file contains only anchor rows
(i.e. the first run left no corrupted row unrepaired). -/
theorem C4_idempotence_amended (lines : List Line) (cnt : Nat) (out : List Line)
    (h : process_csv lines = (cnt, some out))
    (hanch : ∀ r ∈ mkRecords out.tail, isAnchor r = true) :
    process_csv out = (0, some out) := by
  obtain ⟨h1, h2, hcnt, hout⟩ := process_csv_eq_some lines cnt out h
  have hrs_ne : mkRecords lines.tail ≠ [] := by
    intro hnil
    rw [hnil] at h2
    simp at h2
  have htail : out.tail = outputLines (mkRecords lines.tail) := by
    rw [hout]
    rfl
  have hc : ∀ r ∈ mkRecords lines.tail, ',' ∉ r.original_date :=
    mkRecords_no_comma lines.tail
  have hparts : ∀ l ∈ out.tail, 2 ≤ (splitComma l).length := by
    rw [htail]
    exact outputLines_parts (mkRecords lines.tail) hc
  have hlen2 : (mkRecords out.tail).length = out.tail.length := by
    rw [mkRecords_length, List.filter_eq_self.mpr ?hp]
    case hp =>
      intro a ha
      exact decide_eq_true (hparts a ha)
  have houtlen : out.tail.length = (mkRecords lines.tail).length := by
    rw [htail, outputLines_length]
  have hrs0 : 0 < (mkRecords lines.tail).length := List.length_pos.mpr hrs_ne
  have hrs2_ne : mkRecords out.tail ≠ [] := by
    intro hn
    have := congrArg List.length hn
    simp only [List.length_nil] at this
    omega
  have hlout : ¬ out.length < 2 := by
    rw [hout, List.length_cons, outputLines_length]
    omega
  have hall : ¬ ((mkRecords out.tail).all (fun r => !isAnchor r) = true) := by
    intro hALL
    obtain ⟨r0, hr0⟩ := List.exists_mem_of_ne_nil (mkRecords out.tail) hrs2_ne
    have hx := List.all_eq_true.mp hALL r0 hr0
    rw [hanch r0 hr0] at hx
    simp at hx
  have hcount : fixedCount (mkRecords out.tail) = 0 := by
    unfold fixedCount
    rw [List.length_eq_zero, List.filter_eq_nil_iff]
    intro p hp
    have hr : p.2 ∈ mkRecords out.tail := snd_mem_of_mem_enum _ p hp
    have ha := fixedDateOf_of_anchor (mkRecords out.tail)
      (ascendingOf (mkRecords out.tail)) p.1 p.2 (hanch p.2 hr)
    unfold fixedOf
    rw [ha]
    simp
  have hlines : outputLines (mkRecords out.tail) = out.tail := by
    unfold outputLines
    have hmapeq : (mkRecords out.tail).enum.map
        (fun p => (fixedOf (mkRecords out.tail) p.1 p.2).1 ++ ',' :: p.2.value)
        = (mkRecords out.tail).enum.map
            (fun p => p.2.original_date ++ ',' :: p.2.value) := by
      apply List.map_congr_left
      intro p hp
      have hr : p.2 ∈ mkRecords out.tail := snd_mem_of_mem_enum _ p hp
      have ha := fixedDateOf_of_anchor (mkRecords out.tail)
        (ascendingOf (mkRecords out.tail)) p.1 p.2 (hanch p.2 hr)
      show (fixedOf (mkRecords out.tail) p.1 p.2).1 ++ ',' :: p.2.value = _
      unfold fixedOf
      rw [ha]
    rw [hmapeq]
    have hsplit : (mkRecords out.tail).enum.map
        (fun p => p.2.original_date ++ ',' :: p.2.value)
        = ((mkRecords out.tail).enum.map Prod.snd).map
            (fun r => r.original_date ++ ',' :: r.value) := by
      rw [List.map_map]
      rfl
    rw [hsplit, List.enum_map_snd]
    exact mkRecords_map_reassemble out.tail hparts
  have hcons : out = out.headD [] :: out.tail := by
    rw [hout]
    rfl
  unfold process_csv
  rw [if_neg hlout, if_neg hall, hcount, hlines, ← hcons]

/-- a file whose single corrupted row gets fully repaired by the first run. -/

theorem C4_idempotence_amended_witness : process_csv C4wout = (0, some C4wout) :=
  C4_idempotence_amended C4wlines 1 C4wout (by decide) (by decide)
